import Mathlib

/-!
Verification of the pssetools capacity-analysis core.

The development shallowly embeds the Python sources:
  - `pssetools/capacity_analysis.py` (the `CapacityAnalyser` class: the
    bisection search `max_power_available_mva`, `feasibility_check`,
    `bus_actual_load_mva` streaming aggregation, `__init__` precondition
    checking, `get_contingency_scenario` / `branch_is_not_critical`), and
  - `pssetools/subsystems.py` (`Branch`, `Bus`, `Load`, `disable_branch`,
    `TemporaryBusLoad`).

Python `complex` values are embedded as pairs of rationals (`Cpx`), Python
`float` arithmetic as exact rational arithmetic.  Effectful calls into the
PSSE model (`wrapped_funcs`, the power-flow solver and the violations
classifier, none of which are part of the analysed sources) are embedded as
explicit state passing over `NetState`, or as oracle function parameters
(`cv`, `cc`, `fc`) standing for `check_violations` / `contingency_check` /
`feasibility_check` results on the current network state.  Python context
managers become higher-order functions receiving the scope body; exceptions
become `Except` results.
-/

namespace Pssetools

/-- Complex apparent power in MVA: `re` is active power (MW), `im` is
reactive power (MVAr).  Embeds Python `complex` with rational components. -/
structure Cpx where
  re : ℚ
  im : ℚ
deriving DecidableEq

/-- Componentwise addition of complex powers, as Python `+` on `complex`. -/
def Cpx.add (a b : Cpx) : Cpx := Cpx.mk (a.re + b.re) (a.im + b.im)

instance : Add Cpx := ⟨Cpx.add⟩

/-- Python's `0j`. -/
def Cpx.zero : Cpx := Cpx.mk 0 0

/-- Division of a complex by the real scalar 2, used for the bisection
midpoint `(lower_limit_mva + upper_limit_mva) / 2`. -/
def Cpx.half (z : Cpx) : Cpx := Cpx.mk (z.re / 2) (z.im / 2)

/-- Modelled from the spec: `Violations` (from `violations_analysis.py`,
which is not among the provided sources) is a set-valued outcome of one
violations check; `noViolations` is the empty set, the flags record
thermal and voltage limit violations. -/
structure Violations where
  thermal : Bool
  voltage : Bool
deriving DecidableEq

/-- The distinguished `Violations.NO_VIOLATIONS` value. -/
def Violations.noViolations : Violations := Violations.mk false false

/-- Branch record (`subsystems.py` lines 8-19): identifying keys only;
the enabled status is queried live from the network state. -/
structure Branch where
  from_number : Int
  to_number : Int
  branch_id : String
deriving DecidableEq

/-- Modelled from the spec: `Trafo` (two-winding transformer; its class is
not among the provided sources) carries identity keys like `Branch`. -/
structure Trafo where
  from_number : Int
  to_number : Int
  trafo_id : String
deriving DecidableEq

/-- Bus record (`subsystems.py` lines 58-61). -/
structure Bus where
  number : Int
  ex_name : String
deriving DecidableEq

/-- Load record (`subsystems.py` lines 88-93): owning bus number, display
name, element id and complex actual power `mva_act`. -/
structure Load where
  number : Int
  ex_name : String
  load_id : String
  mva_act : Cpx
deriving DecidableEq

/-- Modelled from the spec: the optional contingency-element reference
carried by a `LimitingFactor` (from `contingency_analysis.py`, not among
the provided sources). -/
inductive SubsysRef
  | branch (b : Branch)
  | trafo (t : Trafo)
deriving DecidableEq

/-- Modelled from the spec: `LimitingFactor` (from `contingency_analysis.py`)
pairs a `Violations` outcome with an optional reference to the contingency
element whose outage produced it (`none` means the intact network). -/
structure LimitingFactor where
  v : Violations
  ss : Option SubsysRef
deriving DecidableEq

/-- Modelled from the spec: `ContingencyScenario` (from
`contingency_analysis.py`) is an ordered pair of sequences of non-critical
branches and non-critical trafos. -/
structure ContingencyScenario where
  branches : List Branch
  trafos : List Trafo
deriving DecidableEq

/-- Python exceptions surfaced by the embedded code. -/
inductive PyErr
  | runtimeError
deriving DecidableEq

/-- Entry of the network model's load table: a load element keyed by bus
number and load id, carrying its complex power. -/
structure LoadEntry where
  number : Int
  load_id : String
  power : Cpx
deriving DecidableEq

/-- The mutable network model state touched by the embedded code: branch
and trafo status plus the load table.  This embeds the PSSE case state
behind `wrapped_funcs`. -/
structure NetState where
  branchSt : Branch → Bool
  trafoSt : Trafo → Bool
  loads : List LoadEntry

/-- Modelled from the spec: `wf.branch_chng_3(..., st=st)` sets one branch's
status (a model mutation primitive of the external interface). -/
def branchChng3St (branch : Branch) (st : Bool) (s : NetState) : NetState :=
  NetState.mk (fun b => if b = branch then st else s.branchSt b) s.trafoSt s.loads

/-- Modelled from the spec: the trafo status mutation primitive. -/
def trafoChngSt (trafo : Trafo) (st : Bool) (s : NetState) : NetState :=
  NetState.mk s.branchSt (fun t => if t = trafo then st else s.trafoSt t) s.loads

/-- Modelled from the spec: `wf.load_data_6(bus, load_id)` creates a new
load element at the bus with zero initial power. -/
def loadData6 (bus_number : Int) (load_id : String) (s : NetState) : NetState :=
  NetState.mk s.branchSt s.trafoSt (s.loads ++ [LoadEntry.mk bus_number load_id Cpx.zero])

/-- Modelled from the spec: `wf.purgload(bus, load_id)` deletes the load
element with the given keys. -/
def purgload (bus_number : Int) (load_id : String) (s : NetState) : NetState :=
  NetState.mk s.branchSt s.trafoSt
    (s.loads.filter (fun e => !(decide (e.number = bus_number ∧ e.load_id = load_id))))

/-- Modelled from the spec: `wf.load_chng_6(bus, load_id, realar=[p, q])`
overwrites the power of the load element with the given keys. -/
def loadChng6 (bus_number : Int) (load_id : String) (realar : Cpx) (s : NetState) : NetState :=
  NetState.mk s.branchSt s.trafoSt
    (s.loads.map (fun e =>
      if e.number = bus_number ∧ e.load_id = load_id then
        LoadEntry.mk e.number e.load_id realar
      else e))

/-- Observation: the power of the load element with the given keys, if any. -/
def lookupLoad (s : NetState) (bus_number : Int) (load_id : String) : Option Cpx :=
  (s.loads.find? (fun e => decide (e.number = bus_number ∧ e.load_id = load_id))).map
    LoadEntry.power

/-- Embeds `Branch.is_enabled` (`subsystems.py` lines 14-19): the live
status, queried from the network state, is nonzero. -/
def branchIsEnabled (s : NetState) (branch : Branch) : Bool := s.branchSt branch

/-- Trafo counterpart of `branchIsEnabled` (its Python class is not among
the provided sources; modelled from the spec). -/
def trafoIsEnabled (s : NetState) (trafo : Trafo) : Bool := s.trafoSt trafo

/-- Python truthiness of the value bound by `with ... as is_disabled`:
`None` is falsy, a `bool` is itself. -/
def pyTruthy : Option Bool → Bool
  | none => false
  | some b => b

/-- Embeds `disable_branch` (`subsystems.py` lines 49-55).  The context
manager sets the branch status to 0, performs a bare `yield` (so the value
bound by `with ... as is_disabled` is `None`, embedded as `none`), and in
the `finally` block unconditionally restores the status to 1 — also when
the body exits with an exception, which is why the body's result type `α`
is arbitrary (it may be an `Except`). -/
def disableBranchScope {α : Type} (branch : Branch)
    (body : Option Bool → NetState → α × NetState) (s : NetState) : α × NetState :=
  let s1 := branchChng3St branch false s
  let r := body none s1
  (r.1, branchChng3St branch true r.2)

/-- Modelled from the spec: `disable_trafo` (not among the provided
sources) disables the trafo if the model accepts the change, yields whether
the disable succeeded, and on exit unconditionally restores the status to
enabled. -/
def disableTrafoScope {α : Type} (trafo : Trafo) (disable_accepted : Bool)
    (body : Option Bool → NetState → α × NetState) (s : NetState) : α × NetState :=
  let s1 := if disable_accepted then trafoChngSt trafo false s else s
  let r := body (some disable_accepted) s1
  (r.1, trafoChngSt trafo true r.2)

/-- The `TemporaryBusLoad.TEMP_LOAD_ID` constant (`subsystems.py` line 127). -/
def TEMP_LOAD_ID : String := "Tm"

/-- Embeds the `TemporaryBusLoad` context manager (`subsystems.py` lines
126-141): `enter` creates the temporary load element and activates the
object, the body runs with the active flag set, and `exit` unconditionally
purges the element — also when the body exits with an exception (the body
returns an `Except`). -/
def temporaryBusLoadScope {E α : Type} (bus : Bus)
    (body : Bool → NetState → Except E α × NetState) (s : NetState) :
    Except E α × NetState :=
  let s1 := loadData6 bus.number TEMP_LOAD_ID s
  let r := body true s1
  (r.1, purgload bus.number TEMP_LOAD_ID r.2)

/-- Embeds `TemporaryBusLoad.__call__` (`subsystems.py` lines 143-151):
raises `RuntimeError` when the context manager is not active, otherwise
overwrites the temporary load's power via `wf.load_chng_6`. -/
def temporaryBusLoadCall (context_manager_is_active : Bool) (bus : Bus) (new_load : Cpx)
    (s : NetState) : Except PyErr Unit × NetState :=
  if context_manager_is_active then
    (Except.ok (), loadChng6 bus.number TEMP_LOAD_ID new_load s)
  else (Except.error PyErr.runtimeError, s)

/-- The persistent loads cursor of `CapacityAnalyser` (`__init__` lines
104-109): `load` is `self._load` when `self._loads_available` (embedded as
`none` when the iterator is exhausted), `rest` is what remains of
`self._loads_iterator`. -/
structure LoadsCursor where
  load : Option Load
  rest : List Load
deriving DecidableEq

/-- Cursor construction (`__init__` lines 104-109): take the first element
of `Loads()` if there is one, else mark the cursor unavailable. -/
def LoadsCursor.init : List Load → LoadsCursor
  | [] => LoadsCursor.mk none []
  | l :: ls => LoadsCursor.mk (some l) ls

/-- The loads not yet consumed by a cursor (current element first). -/
def consOpt : Option Load → List Load → List Load
  | none, _ => []
  | some l, ls => l :: ls

/-- The loads not yet consumed by the cursor. -/
def LoadsCursor.remaining (c : LoadsCursor) : List Load := consOpt c.load c.rest

/-- Embeds the `while` loop of `bus_actual_load_mva` (`capacity_analysis.py`
lines 203-209): while the cursor is available (`some`) and its bus number
is at most `bus_number`, accumulate the power of exact matches and advance
(the advance is case-split on the iterator's remainder: `StopIteration`
clears the availability flag); stop as soon as the cursor's bus number
exceeds `bus_number`, leaving the cursor in place. -/
def busLoadWhile (bus_number : Int) : Option Load → List Load → Cpx → Cpx × LoadsCursor
  | none, rest, acc => (acc, LoadsCursor.mk none rest)
  | some ld, [], acc =>
      if ld.number ≤ bus_number then
        (if ld.number = bus_number then acc + ld.mva_act else acc, LoadsCursor.mk none [])
      else (acc, LoadsCursor.mk (some ld) [])
  | some ld, l2 :: ls, acc =>
      if ld.number ≤ bus_number then
        busLoadWhile bus_number (some l2) ls
          (if ld.number = bus_number then acc + ld.mva_act else acc)
      else (acc, LoadsCursor.mk (some ld) (l2 :: ls))

/-- Embeds `CapacityAnalyser.bus_actual_load_mva` (`capacity_analysis.py`
lines 197-210), with the cursor state passed explicitly. -/
def busActualLoadMva (c : LoadsCursor) (bus_number : Int) : Cpx × LoadsCursor :=
  busLoadWhile bus_number c.load c.rest Cpx.zero

/-- Successive `bus_actual_load_mva` calls sharing the persistent cursor,
as performed by the bus sweep of `buses_headroom`. -/
def runQueries (c : LoadsCursor) : List Int → List Cpx × LoadsCursor
  | [] => ([], c)
  | n :: ns =>
      let r := busActualLoadMva c n
      let rs := runQueries r.2 ns
      (r.1 :: rs.1, rs.2)

/-- Sum of a list of complex powers. -/
def sumCpx : List Cpx → Cpx
  | [] => Cpx.zero
  | a :: l => a + sumCpx l

/-- Total `mva_act` of the loads of a list attached to the given bus. -/
def loadSumAt (loads : List Load) (bus_number : Int) : Cpx :=
  sumCpx ((loads.filter (fun l => decide (l.number = bus_number))).map Load.mva_act)

/-- Embeds `CapacityAnalyser.feasibility_check` (`capacity_analysis.py`
lines 259-269).  The oracle `cv` stands for `self.check_violations()` and
`cc` for `self.contingency_check()`, both as functions of the power
currently injected by the temporary subsystem (the only state the bisection
varies between probes).  Feasible states return `(true, none)`; an intact
violation returns the violations wrapped in a `LimitingFactor` with no
element reference; otherwise the contingency limiting factor is returned. -/
def feasibilityCheck (cv : Cpx → Violations) (cc : Cpx → LimitingFactor)
    (injected : Cpx) : Bool × Option LimitingFactor :=
  if cv injected ≠ Violations.noViolations then
    (false, some (LimitingFactor.mk (cv injected) none))
  else
    if (cc injected).v ≠ Violations.noViolations then (false, some (cc injected))
    else (true, none)

/-- Embeds the `for i in range(self._max_iterations - 1)` loop of
`max_power_available_mva` (`capacity_analysis.py` lines 242-257): compute
the midpoint, probe it (`temp_subsystem(middle_mva)` followed by
`self.feasibility_check()`, fused into `fc`), move the feasible bound,
break as soon as the active-power gap is below the solver tolerance, and
return the last feasible lower bound with the limiting factor of the most
recent probe. -/
def bisectAux (fc : Cpx → Bool × Option LimitingFactor) (tol : ℚ) :
    ℕ → Cpx → Cpx → Option LimitingFactor → Cpx × Option LimitingFactor
  | 0, lower, _, lf => (lower, lf)
  | n + 1, lower, upper, _ =>
      let mid := (lower + upper).half
      let r := fc mid
      let lower2 := if r.1 then mid else lower
      let upper2 := if r.1 then upper else mid
      if upper2.re - lower2.re < tol then (lower2, r.2)
      else bisectAux fc tol n lower2 upper2 r.2

/-- Embeds `CapacityAnalyser.max_power_available_mva` (`capacity_analysis.py`
lines 227-257): probe the upper limit first and return it unchanged if
feasible, otherwise bisect starting from `lower = 0j`. -/
def maxPowerAvailableMva (fc : Cpx → Bool × Option LimitingFactor)
    (upper_limit_mva : Cpx) (max_iterations : ℕ) (solver_tolerance_p_mw : ℚ) :
    Cpx × Option LimitingFactor :=
  let r := fc upper_limit_mva
  if r.1 then (upper_limit_mva, r.2)
  else bisectAux fc solver_tolerance_p_mw (max_iterations - 1) Cpx.zero upper_limit_mva r.2

/-- Number of `feasibility_check` probes performed by the loop of
`max_power_available_mva`, following the control flow of `bisectAux`. -/
def bisectProbeCount (fc : Cpx → Bool × Option LimitingFactor) (tol : ℚ) :
    ℕ → Cpx → Cpx → ℕ
  | 0, _, _ => 0
  | n + 1, lower, upper =>
      let mid := (lower + upper).half
      let r := fc mid
      let lower2 := if r.1 then mid else lower
      let upper2 := if r.1 then upper else mid
      if upper2.re - lower2.re < tol then 1
      else 1 + bisectProbeCount fc tol n lower2 upper2

/-- Total number of `feasibility_check` probes performed by one
`max_power_available_mva` call (the initial upper-limit probe included). -/
def maxPowerProbeCount (fc : Cpx → Bool × Option LimitingFactor)
    (upper_limit_mva : Cpx) (max_iterations : ℕ) (tol : ℚ) : ℕ :=
  if (fc upper_limit_mva).1 then 1
  else 1 + bisectProbeCount fc tol (max_iterations - 1) Cpx.zero upper_limit_mva

/-- The sequence of injections probed by the loop of
`max_power_available_mva`, following the control flow of `bisectAux`. -/
def bisectAuxTrace (fc : Cpx → Bool × Option LimitingFactor) (tol : ℚ) :
    ℕ → Cpx → Cpx → List Cpx
  | 0, _, _ => []
  | n + 1, lower, upper =>
      let mid := (lower + upper).half
      let r := fc mid
      let lower2 := if r.1 then mid else lower
      let upper2 := if r.1 then upper else mid
      if upper2.re - lower2.re < tol then [mid]
      else mid :: bisectAuxTrace fc tol n lower2 upper2

/-- The sequence of injections probed by one `max_power_available_mva`
call, in order: the upper limit first, then the bisection midpoints. -/
def maxPowerProbeTrace (fc : Cpx → Bool × Option LimitingFactor)
    (upper_limit_mva : Cpx) (max_iterations : ℕ) (tol : ℚ) : List Cpx :=
  upper_limit_mva ::
    (if (fc upper_limit_mva).1 then []
     else bisectAuxTrace fc tol (max_iterations - 1) Cpx.zero upper_limit_mva)

/-- Embeds `CapacityAnalyser.branch_is_not_critical` (`capacity_analysis.py`
lines 312-321): for an enabled branch, open the disable scope binding
`is_disabled`; if `is_disabled` is truthy run a violations check on the
modified state and compare with `NO_VIOLATIONS`; in every other case fall
through to `return False`.  The oracle `cv` stands for
`self.check_violations()` as a function of the network state. -/
def branchIsNotCritical (cv : NetState → Violations) (branch : Branch)
    (s : NetState) : Bool × NetState :=
  if branchIsEnabled s branch then
    disableBranchScope branch
      (fun is_disabled s1 =>
        if pyTruthy is_disabled then
          (decide (cv s1 = Violations.noViolations), s1)
        else (false, s1))
      s
  else (false, s)

/-- Embeds `CapacityAnalyser.trafo_is_not_critical` (`capacity_analysis.py`
lines 323-332), over the spec-modelled `disable_trafo`; `disable_accepted`
tells whether the model accepts disabling the given trafo. -/
def trafoIsNotCritical (cv : NetState → Violations) (disable_accepted : Trafo → Bool)
    (trafo : Trafo) (s : NetState) : Bool × NetState :=
  if trafoIsEnabled s trafo then
    disableTrafoScope trafo (disable_accepted trafo)
      (fun is_disabled s1 =>
        if pyTruthy is_disabled then
          (decide (cv s1 = Violations.noViolations), s1)
        else (false, s1))
      s
  else (false, s)

/-- State-threaded filtering of the branches generator expression of
`get_contingency_scenario` (`capacity_analysis.py` lines 304-306). -/
def filterBranchesNotCritical (cv : NetState → Violations) :
    List Branch → NetState → List Branch × NetState
  | [], s => ([], s)
  | b :: bs, s =>
      let r := branchIsNotCritical cv b s
      let rest := filterBranchesNotCritical cv bs r.2
      (if r.1 then b :: rest.1 else rest.1, rest.2)

/-- State-threaded filtering of the trafos generator expression of
`get_contingency_scenario` (`capacity_analysis.py` lines 307-309). -/
def filterTrafosNotCritical (cv : NetState → Violations) (disable_accepted : Trafo → Bool) :
    List Trafo → NetState → List Trafo × NetState
  | [], s => ([], s)
  | t :: ts, s =>
      let r := trafoIsNotCritical cv disable_accepted t s
      let rest := filterTrafosNotCritical cv disable_accepted ts r.2
      (if r.1 then t :: rest.1 else rest.1, rest.2)

/-- Embeds `CapacityAnalyser.get_contingency_scenario` (`capacity_analysis.py`
lines 301-310): the scenario pairs the non-critical branches with the
non-critical trafos, screened in order. -/
def getContingencyScenario (cv : NetState → Violations) (disable_accepted : Trafo → Bool)
    (branches : List Branch) (trafos : List Trafo) (s : NetState) :
    ContingencyScenario × NetState :=
  let rb := filterBranchesNotCritical cv branches s
  let rt := filterTrafosNotCritical cv disable_accepted trafos rb.2
  (ContingencyScenario.mk rb.1 rt.1, rt.2)

/-- Effects of `CapacityAnalyser.__init__` observable by the claims:
building a contingency scenario-building pass, or probing a bus (the
latter is never emitted during construction). -/
inductive InitEffect
  | buildScenario
  | probeBus (bus_number : Int)
deriving DecidableEq

/-- The analyser state produced by a successful construction. -/
structure CapacityAnalyserState where
  contingency_scenario : ContingencyScenario
  loads_cursor : LoadsCursor

/-- Embeds `CapacityAnalyser.check_base_case_violations` (`capacity_analysis.py`
lines 130-134): raise `RuntimeError` when the base case has violations. -/
def checkBaseCaseViolations (base_case_violations : Violations) : Except PyErr Unit :=
  if base_case_violations ≠ Violations.noViolations then Except.error PyErr.runtimeError
  else Except.ok ()

/-- Embeds `CapacityAnalyser.handle_empty_contingency_scenario`
(`capacity_analysis.py` lines 136-145): keep a provided scenario, else run
the scenario-building pass (recorded as an effect). -/
def handleEmptyContingencyScenario (provided : Option ContingencyScenario)
    (built : ContingencyScenario) : ContingencyScenario × List InitEffect :=
  match provided with
  | some cs => (cs, [])
  | none => (built, [InitEffect.buildScenario])

/-- Embeds the claim-relevant control flow of `CapacityAnalyser.__init__`
(`capacity_analysis.py` lines 99-109): the base-case violations check runs
first and aborts construction with `RuntimeError` before the contingency
scenario is handled and before the loads cursor is created; otherwise the
scenario is resolved and the persistent loads cursor is built.
`base_case_violations` is the outcome of the base-case `check_violations()`
call, `built` is what `get_contingency_scenario` would return. -/
def capacityAnalyserInit (base_case_violations : Violations)
    (provided : Option ContingencyScenario) (built : ContingencyScenario)
    (loads : List Load) : Except PyErr CapacityAnalyserState × List InitEffect :=
  match checkBaseCaseViolations base_case_violations with
  | Except.error e => (Except.error e, [])
  | Except.ok _ =>
      let hc := handleEmptyContingencyScenario provided built
      (Except.ok (CapacityAnalyserState.mk hc.1 (LoadsCursor.init loads)), hc.2)

/-! Concrete instances used by witnesses and counterexamples. -/

/-- A limiting factor recording a thermal violation of the intact network. -/
def lfThermal : LimitingFactor := LimitingFactor.mk (Violations.mk true false) none

/-- Feasibility oracle that accepts every injection (witness for the
feasible-upper-limit path). -/
def fcFeasibleAll : Cpx → Bool × Option LimitingFactor := fun _ => (true, none)

/-- Monotone threshold feasibility oracle with threshold 30 MW. -/
def fcThreshold30 : Cpx → Bool × Option LimitingFactor :=
  fun s => (decide (s.re ≤ 30), some lfThermal)

/-- Monotone threshold feasibility oracle with threshold 10 MW. -/
def fcThreshold10 : Cpx → Bool × Option LimitingFactor :=
  fun s => (decide (s.re ≤ 10), some lfThermal)

/-- Violations oracle stepping from clear to a thermal violation at 80 MW
injected. -/
def cvStep80 : Cpx → Violations :=
  fun s => if s.re ≤ 80 then Violations.noViolations else Violations.mk true false

/-- Contingency oracle that never limits. -/
def ccClear : Cpx → LimitingFactor :=
  fun _ => LimitingFactor.mk Violations.noViolations none

/-- The synthetic sorted load list of the claims: loads of 5+0j and 3+0j on
bus 1, 2+0j on bus 4, 1+0j on bus 9. -/
def loads4 : List Load :=
  [Load.mk 1 "BUS1" "1" (Cpx.mk 5 0), Load.mk 1 "BUS1" "2" (Cpx.mk 3 0),
   Load.mk 4 "BUS4" "1" (Cpx.mk 2 0), Load.mk 9 "BUS9" "1" (Cpx.mk 1 0)]

/-- A one-element load list: a 5+0j load on bus 1. -/
def loads1 : List Load := [Load.mk 1 "BUS1" "1" (Cpx.mk 5 0)]

/-- A sample branch. -/
def br12 : Branch := Branch.mk 1 2 "1"

/-- Violations oracle reporting `NO_VIOLATIONS` in every network state. -/
def cvAllClear : NetState → Violations := fun _ => Violations.noViolations

/-- A network state with every branch and trafo enabled and no loads. -/
def sAllEnabled : NetState := NetState.mk (fun _ => true) (fun _ => true) []

/-- A sample bus. -/
def bus7 : Bus := Bus.mk 7 "BUS7"

/-- A network state already holding a temporary load element at bus 7. -/
def sWithTempLoad : NetState :=
  NetState.mk (fun _ => true) (fun _ => true) [LoadEntry.mk 7 "Tm" Cpx.zero]

/-- A nonempty violations value (thermal). -/
def violThermal : Violations := Violations.mk true false

/-! Component lemmas for `Cpx`. -/

@[simp] theorem Cpx.add_re (a b : Cpx) : (a + b).re = a.re + b.re := rfl

@[simp] theorem Cpx.add_im (a b : Cpx) : (a + b).im = a.im + b.im := rfl

@[simp] theorem Cpx.half_re (z : Cpx) : z.half.re = z.re / 2 := rfl

@[simp] theorem Cpx.half_im (z : Cpx) : z.half.im = z.im / 2 := rfl

@[simp] theorem Cpx.zero_re : Cpx.zero.re = 0 := rfl

@[simp] theorem Cpx.zero_im : Cpx.zero.im = 0 := rfl

@[simp] theorem Cpx.mk_re (a b : ℚ) : (Cpx.mk a b).re = a := rfl

@[simp] theorem Cpx.mk_im (a b : ℚ) : (Cpx.mk a b).im = b := rfl

theorem Cpx.eq_iff (a b : Cpx) : a = b ↔ a.re = b.re ∧ a.im = b.im := by
  cases a; cases b; simp

theorem cpx_add_zero (a : Cpx) : a + Cpx.zero = a := by
  cases a; simp [Cpx.eq_iff]

theorem cpx_zero_add (a : Cpx) : Cpx.zero + a = a := by
  cases a; simp [Cpx.eq_iff]

theorem cpx_add_assoc (a b c : Cpx) : a + b + c = a + (b + c) := by
  simp [Cpx.eq_iff]; constructor <;> ring

/-! Helper lemmas about the network-state primitives. -/

theorem lookupLoad_purgload (bus_number : Int) (load_id : String) (s : NetState) :
    lookupLoad (purgload bus_number load_id s) bus_number load_id = none := by
  rcases s with ⟨bs, ts, L⟩
  simp only [lookupLoad, purgload]
  suffices h : List.find?
      (fun e => decide (e.number = bus_number ∧ e.load_id = load_id))
      (List.filter (fun e => !(decide (e.number = bus_number ∧ e.load_id = load_id))) L) =
      none by
    rw [h]; rfl
  induction L with
  | nil => rfl
  | cons a L ih =>
      by_cases h : a.number = bus_number ∧ a.load_id = load_id
      · simpa [List.filter_cons, h] using ih
      · have hd : decide (a.number = bus_number ∧ a.load_id = load_id) = false := by
          simp [h]
        rw [List.filter_cons, hd]
        simp only [Bool.not_false, if_true]
        rw [List.find?_cons_of_neg _ (by simp [hd])]
        exact ih

theorem lookupLoad_loadChng6 (bus_number : Int) (load_id : String) (p : Cpx) (s : NetState)
    (h : lookupLoad s bus_number load_id ≠ none) :
    lookupLoad (loadChng6 bus_number load_id p s) bus_number load_id = some p := by
  rcases s with ⟨bs, ts, L⟩
  simp only [lookupLoad, loadChng6] at h ⊢
  induction L with
  | nil => simp at h
  | cons a L ih =>
      by_cases ha : a.number = bus_number ∧ a.load_id = load_id
      · rw [List.map_cons, if_pos ha]
        rw [List.find?_cons_of_pos _ (by simp [ha.1, ha.2])]
        rfl
      · have h2 : Option.map LoadEntry.power
            (List.find? (fun e => decide (e.number = bus_number ∧ e.load_id = load_id)) L) ≠
            none := by
          rw [List.find?_cons_of_neg _ (by simp [ha])] at h
          exact h
        rw [List.map_cons, if_neg ha]
        rw [List.find?_cons_of_neg _ (by simp [ha])]
        exact ih h2

/-! Claim C5: feasible upper limit. -/

/-- Claim C5: if the configured upper-bound complex power is itself
feasible, `max_power_available_mva` returns exactly that upper bound,
unchanged, after exactly one feasibility probe and no bisection
iterations. -/
theorem claim_C5 (fc : Cpx → Bool × Option LimitingFactor) (U : Cpx) (max_iterations : ℕ)
    (tol : ℚ) (h : (fc U).1 = true) :
    maxPowerAvailableMva fc U max_iterations tol = (U, (fc U).2) ∧
    maxPowerProbeCount fc U max_iterations tol = 1 ∧
    maxPowerProbeTrace fc U max_iterations tol = [U] := by
  refine ⟨?_, ?_, ?_⟩ <;>
    simp [maxPowerAvailableMva, maxPowerProbeCount, maxPowerProbeTrace, h]

/-- Witness for claim C5, at the all-feasible oracle and upper limit
50+10j MVA. -/
theorem claim_C5_witness :
    (fcFeasibleAll (Cpx.mk 50 10)).1 = true ∧
    maxPowerAvailableMva fcFeasibleAll (Cpx.mk 50 10) 10 5 = (Cpx.mk 50 10, none) ∧
    maxPowerProbeCount fcFeasibleAll (Cpx.mk 50 10) 10 5 = 1 := by
  have h := claim_C5 fcFeasibleAll (Cpx.mk 50 10) 10 5 rfl
  exact ⟨rfl, h.1, h.2.1⟩

/-! Claim C7: rollback on every exit path. -/

/-- Claim C7: every scoped mutation is rolled back on every exit path,
including exceptional ones.  For every body (in particular bodies that
never call the set-power operation, and bodies whose result is an
`Except.error`), the `TemporaryBusLoad` scope leaves no temporary load
element at its bus, and the `disable_branch` scope leaves the branch
status enabled. -/
theorem claim_C7 :
    (∀ (E α : Type) (bus : Bus) (body : Bool → NetState → Except E α × NetState)
        (s : NetState),
        lookupLoad (temporaryBusLoadScope bus body s).2 bus.number TEMP_LOAD_ID = none) ∧
    (∀ (α : Type) (branch : Branch) (body : Option Bool → NetState → α × NetState)
        (s : NetState),
        (disableBranchScope branch body s).2.branchSt branch = true) := by
  constructor
  · intro E α bus body s
    exact lookupLoad_purgload bus.number TEMP_LOAD_ID (body true (loadData6 bus.number TEMP_LOAD_ID s)).2
  · intro α branch body s
    simp [disableBranchScope, branchChng3St]

/-! Claim C9: set-power outside the active scope. -/

/-- Claim C9: invoking the temporary load's set-power operation while the
scope is inactive raises `RuntimeError` and leaves the network state
untouched; while the scope is active the call succeeds and overwrites the
temporary element's power. -/
theorem claim_C9 :
    (∀ (bus : Bus) (new_load : Cpx) (s : NetState),
        temporaryBusLoadCall false bus new_load s = (Except.error PyErr.runtimeError, s)) ∧
    (∀ (bus : Bus) (new_load : Cpx) (s : NetState),
        (temporaryBusLoadCall true bus new_load s).1 = Except.ok () ∧
        (lookupLoad s bus.number TEMP_LOAD_ID ≠ none →
          lookupLoad (temporaryBusLoadCall true bus new_load s).2 bus.number TEMP_LOAD_ID =
            some new_load)) := by
  refine ⟨fun bus p s => rfl, fun bus p s => ⟨rfl, fun h => ?_⟩⟩
  exact lookupLoad_loadChng6 bus.number TEMP_LOAD_ID p s h

/-- Witness for claim C9, at bus 7 with the temporary element present. -/
theorem claim_C9_witness :
    temporaryBusLoadCall false bus7 (Cpx.mk 9 3) sWithTempLoad =
      (Except.error PyErr.runtimeError, sWithTempLoad) ∧
    lookupLoad (temporaryBusLoadCall true bus7 (Cpx.mk 9 3) sWithTempLoad).2 7 "Tm" =
      some (Cpx.mk 9 3) := by
  constructor
  · exact claim_C9.1 bus7 (Cpx.mk 9 3) sWithTempLoad
  · have hne : lookupLoad sWithTempLoad 7 "Tm" ≠ none := by decide
    exact (claim_C9.2 bus7 (Cpx.mk 9 3) sWithTempLoad).2 hne

/-! Claim C8: base-case violations abort construction. -/

/-- Claim C8: when the base case has any violation, `CapacityAnalyser`
construction fails with `RuntimeError` before any contingency scenario is
built and before any bus is probed, and no partial analyser state is
produced. -/
theorem claim_C8 (base_case_violations : Violations)
    (provided : Option ContingencyScenario) (built : ContingencyScenario)
    (loads : List Load) (h : base_case_violations ≠ Violations.noViolations) :
    capacityAnalyserInit base_case_violations provided built loads =
      (Except.error PyErr.runtimeError, []) ∧
    InitEffect.buildScenario ∉ (capacityAnalyserInit base_case_violations provided built loads).2 ∧
    ∀ n, InitEffect.probeBus n ∉ (capacityAnalyserInit base_case_violations provided built loads).2 := by
  have hc : checkBaseCaseViolations base_case_violations = Except.error PyErr.runtimeError := by
    simp [checkBaseCaseViolations, h]
  refine ⟨?_, ?_, ?_⟩ <;> simp [capacityAnalyserInit, hc]

/-- Witness for claim C8, at a base case with a thermal violation. -/
theorem claim_C8_witness :
    violThermal ≠ Violations.noViolations ∧
    capacityAnalyserInit violThermal none (ContingencyScenario.mk [] []) [] =
      (Except.error PyErr.runtimeError, []) :=
  ⟨by decide, (claim_C8 violThermal none (ContingencyScenario.mk [] []) [] (by decide)).1⟩

/-! Claims C2 and C3: the disable_branch scope yields no success flag. -/

theorem branchIsNotCritical_fst (cv : NetState → Violations) (b : Branch) (s : NetState) :
    (branchIsNotCritical cv b s).1 = false := by
  cases h : branchIsEnabled s b <;>
    simp [branchIsNotCritical, h, disableBranchScope, pyTruthy]

/-- Claim C3 (code bug): `disable_branch` performs a bare `yield`, so the
value bound by `with disable_branch(branch) as is_disabled` is `None` —
it carries no information about whether the disable succeeded.  At an
enabled branch whose disabled state passes the violations check, the body
of `branch_is_not_critical` therefore skips the feasibility probe and the
branch is classified critical, contrary to the claimed contract. -/
theorem claim_C3_bug :
    branchIsEnabled sAllEnabled br12 = true ∧
    (disableBranchScope br12 (fun y s1 => (y, s1)) sAllEnabled).1 = none ∧
    cvAllClear (branchChng3St br12 false sAllEnabled) = Violations.noViolations ∧
    (branchIsNotCritical cvAllClear br12 sAllEnabled).1 = false :=
  ⟨rfl, rfl, rfl, branchIsNotCritical_fst cvAllClear br12 sAllEnabled⟩

/-- Claim C2 (code bug): because the `disable_branch` scope yields `None`,
`branch_is_not_critical` returns `False` for every branch and every
violations oracle, so the branch list of the contingency scenario built by
`get_contingency_scenario` is always empty — enabled branches whose solo
removal yields `NO_VIOLATIONS` are excluded, contrary to the claim. -/
theorem claim_C2_bug (cv : NetState → Violations) (disable_accepted : Trafo → Bool)
    (branches : List Branch) (trafos : List Trafo) (s : NetState) :
    ((getContingencyScenario cv disable_accepted branches trafos s).1).branches = [] := by
  suffices h : ∀ (bs : List Branch) (st : NetState),
      (filterBranchesNotCritical cv bs st).1 = [] by
    simp [getContingencyScenario, h]
  intro bs
  induction bs with
  | nil => intro st; simp [filterBranchesNotCritical]
  | cons b bs ih =>
      intro st
      simp [filterBranchesNotCritical, branchIsNotCritical_fst, ih]

/-! Claims C1 and C4: the bisection search. -/

theorem bisect_succ (fc : Cpx → Bool × Option LimitingFactor) (tol : ℚ) (n : ℕ)
    (lower upper : Cpx) (lf : Option LimitingFactor) :
    bisectAux fc tol (n + 1) lower upper lf =
      if (fc ((lower + upper).half)).1 then
        (if upper.re - ((lower + upper).half).re < tol
         then (((lower + upper).half), (fc ((lower + upper).half)).2)
         else bisectAux fc tol n ((lower + upper).half) upper (fc ((lower + upper).half)).2)
      else
        (if ((lower + upper).half).re - lower.re < tol
         then (lower, (fc ((lower + upper).half)).2)
         else bisectAux fc tol n lower ((lower + upper).half) (fc ((lower + upper).half)).2) := by
  cases h : (fc ((lower + upper).half)).1 <;> simp [bisectAux, h]

theorem bisectAux_threshold (fc : Cpx → Bool × Option LimitingFactor) (T tol : ℚ)
    (hfc : ∀ s, (fc s).1 = decide (s.re ≤ T)) :
    ∀ (n : ℕ) (lower upper : Cpx) (lf : Option LimitingFactor),
      lower.re ≤ T → T < upper.re →
      (bisectAux fc tol n lower upper lf).1.re ≤ T ∧
      (T - (bisectAux fc tol n lower upper lf).1.re < tol ∨
       T - (bisectAux fc tol n lower upper lf).1.re < (upper.re - lower.re) / 2 ^ n) := by
  intro n
  induction n with
  | zero =>
      intro lower upper lf h1 h2
      simp only [bisectAux, pow_zero, div_one]
      exact ⟨h1, Or.inr (by linarith)⟩
  | succ n ih =>
      intro lower upper lf h1 h2
      rw [bisect_succ]
      have hm : ((lower + upper).half).re = (lower.re + upper.re) / 2 := by simp
      have h2n : (2 : ℚ) ^ n ≠ 0 := by positivity
      by_cases hf : ((lower + upper).half).re ≤ T
      · have hb : (fc ((lower + upper).half)).1 = true := by
          rw [hfc]; exact decide_eq_true hf
        rw [hb, if_pos rfl]
        by_cases hbrk : upper.re - ((lower + upper).half).re < tol
        · rw [if_pos hbrk]
          exact ⟨hf, Or.inl (by simp only []; linarith)⟩
        · rw [if_neg hbrk]
          obtain ⟨hr1, hr2⟩ := ih ((lower + upper).half) upper (fc ((lower + upper).half)).2 hf h2
          refine ⟨hr1, ?_⟩
          rcases hr2 with h | h
          · exact Or.inl h
          · right
            have heq : (upper.re - ((lower + upper).half).re) / 2 ^ n =
                (upper.re - lower.re) / 2 ^ (n + 1) := by
              rw [hm, pow_succ]
              field_simp
              ring
            rw [heq] at h
            exact h
      · have hb : (fc ((lower + upper).half)).1 = false := by
          rw [hfc]; exact decide_eq_false hf
        have hf' : T < ((lower + upper).half).re := lt_of_not_le hf
        rw [hb, if_neg (by simp)]
        by_cases hbrk : ((lower + upper).half).re - lower.re < tol
        · rw [if_pos hbrk]
          exact ⟨h1, Or.inl (by simp only []; linarith)⟩
        · rw [if_neg hbrk]
          obtain ⟨hr1, hr2⟩ := ih lower ((lower + upper).half) (fc ((lower + upper).half)).2 h1 hf'
          refine ⟨hr1, ?_⟩
          rcases hr2 with h | h
          · exact Or.inl h
          · right
            have heq : (((lower + upper).half).re - lower.re) / 2 ^ n =
                (upper.re - lower.re) / 2 ^ (n + 1) := by
              rw [hm, pow_succ]
              field_simp
              ring
            rw [heq] at h
            exact h

/-- Claim C1 (amended): for a feasibility oracle that is a monotone
threshold function in the injected active power, with threshold `T` lying
strictly below the upper limit's active power, and with an iteration
budget sufficient for the initial interval to contract below the
tolerance (`U.re / 2 ^ (max_iterations - 1) ≤ tol`), the active-power
component returned by `max_power_available_mva` differs from `T` by less
than the solver tolerance.  The original claim, which requires neither
hypothesis, is refuted by `claim_C1_counterexample`. -/
theorem claim_C1_amended (fc : Cpx → Bool × Option LimitingFactor) (T tol : ℚ) (U : Cpx)
    (max_iterations : ℕ)
    (hfc : ∀ s, (fc s).1 = decide (s.re ≤ T))
    (hT0 : 0 ≤ T) (hTU : T < U.re)
    (hiter : U.re / 2 ^ (max_iterations - 1) ≤ tol) :
    abs ((maxPowerAvailableMva fc U max_iterations tol).1.re - T) < tol := by
  have hfU : (fc U).1 = false := by
    rw [hfc]; exact decide_eq_false (not_le.mpr hTU)
  have hres : maxPowerAvailableMva fc U max_iterations tol =
      bisectAux fc tol (max_iterations - 1) Cpx.zero U (fc U).2 := by
    simp [maxPowerAvailableMva, hfU]
  rw [hres]
  obtain ⟨h1, h2⟩ := bisectAux_threshold fc T tol hfc (max_iterations - 1) Cpx.zero U (fc U).2
    (by simpa using hT0) hTU
  have hlt : T - (bisectAux fc tol (max_iterations - 1) Cpx.zero U (fc U).2).1.re < tol := by
    rcases h2 with h | h
    · exact h
    · have heq : (U.re - Cpx.zero.re) / 2 ^ (max_iterations - 1) =
          U.re / 2 ^ (max_iterations - 1) := by simp
      rw [heq] at h
      linarith
  rw [abs_sub_comm, abs_of_nonneg (by linarith)]
  exact hlt

/-- Witness for claim C1, at threshold 30 MW, upper limit 50 MW, tolerance
5 MW and the default 10 iterations. -/
theorem claim_C1_witness :
    (0 : ℚ) ≤ 30 ∧ (30 : ℚ) < (Cpx.mk 50 0).re ∧
    (Cpx.mk 50 0).re / 2 ^ (10 - 1) ≤ 5 ∧
    abs ((maxPowerAvailableMva fcThreshold30 (Cpx.mk 50 0) 10 5).1.re - 30) < 5 :=
  ⟨by norm_num, by norm_num, by norm_num,
    claim_C1_amended fcThreshold30 30 5 (Cpx.mk 50 0) 10 (fun _ => rfl)
      (by norm_num) (by norm_num) (by norm_num)⟩

/-- Counterexample to claim C1 as stated: with the monotone threshold
oracle `fcThreshold10` (threshold 10 MW), upper limit 100 MW, tolerance
1 MW but `max_iterations = 2`, the search returns 0 MW, which misses the
threshold by 10 MW — not within the tolerance. -/
theorem claim_C1_counterexample :
    (maxPowerAvailableMva fcThreshold10 (Cpx.mk 100 0) 2 1).1 = Cpx.mk 0 0 ∧
    ¬ (abs ((maxPowerAvailableMva fcThreshold10 (Cpx.mk 100 0) 2 1).1.re - 10) < 1) := by
  norm_num [maxPowerAvailableMva, fcThreshold10, bisectAux, Cpx.eq_iff]

theorem bisectAuxTrace_succ (fc : Cpx → Bool × Option LimitingFactor) (tol : ℚ) (n : ℕ)
    (lower upper : Cpx) :
    bisectAuxTrace fc tol (n + 1) lower upper =
      if (fc ((lower + upper).half)).1 then
        (if upper.re - ((lower + upper).half).re < tol then [((lower + upper).half)]
         else ((lower + upper).half) :: bisectAuxTrace fc tol n ((lower + upper).half) upper)
      else
        (if ((lower + upper).half).re - lower.re < tol then [((lower + upper).half)]
         else ((lower + upper).half) :: bisectAuxTrace fc tol n lower ((lower + upper).half)) := by
  cases h : (fc ((lower + upper).half)).1 <;> simp [bisectAuxTrace, h]

theorem getLast?_cons_ex (a : Cpx) (l : List Cpx) : ∃ m, (a :: l).getLast? = some m := by
  induction l generalizing a with
  | nil => exact ⟨a, rfl⟩
  | cons b l ih =>
      obtain ⟨m, hm⟩ := ih b
      exact ⟨m, by rw [List.getLast?_cons_cons]; exact hm⟩

theorem bisectAux_lf_last (fc : Cpx → Bool × Option LimitingFactor) (tol : ℚ) :
    ∀ (n : ℕ) (lower upper : Cpx) (lf : Option LimitingFactor),
      (bisectAux fc tol n lower upper lf).2 =
        (match (bisectAuxTrace fc tol n lower upper).getLast? with
         | none => lf
         | some m => (fc m).2) := by
  intro n
  induction n with
  | zero => intro lower upper lf; rfl
  | succ n ih =>
      intro lower upper lf
      rw [bisect_succ, bisectAuxTrace_succ]
      have hfalse : ¬ (false = true) := by simp
      cases hb : (fc ((lower + upper).half)).1
      · rw [if_neg hfalse, if_neg hfalse]
        by_cases hbrk : ((lower + upper).half).re - lower.re < tol
        · rw [if_pos hbrk, if_pos hbrk]
          simp
        · rw [if_neg hbrk, if_neg hbrk]
          rw [ih lower ((lower + upper).half) (fc ((lower + upper).half)).2]
          cases ht : bisectAuxTrace fc tol n lower ((lower + upper).half) with
          | nil => simp
          | cons a l =>
              obtain ⟨m, hm⟩ := getLast?_cons_ex a l
              rw [List.getLast?_cons_cons, hm]
      · rw [if_pos rfl, if_pos rfl]
        by_cases hbrk : upper.re - ((lower + upper).half).re < tol
        · rw [if_pos hbrk, if_pos hbrk]
          simp
        · rw [if_neg hbrk, if_neg hbrk]
          rw [ih ((lower + upper).half) upper (fc ((lower + upper).half)).2]
          cases ht : bisectAuxTrace fc tol n ((lower + upper).half) upper with
          | nil => simp
          | cons a l =>
              obtain ⟨m, hm⟩ := getLast?_cons_ex a l
              rw [List.getLast?_cons_cons, hm]

/-- Claim C4 (amended): when the bisection search enters the loop (the
upper bound is infeasible), the limiting factor it returns is the one
produced by the most recent probe of any outcome — the last entry of the
probe trace — and `feasibility_check` returns `none` as the limiting
factor of every feasible probe.  Consequently the returned limiting factor
is the last infeasible probe's factor only when no feasible probe follows
it; when the final probe is feasible, the search returns `none` instead,
which refutes the claim as stated (`claim_C4_counterexample`). -/
theorem claim_C4_amended (cv : Cpx → Violations) (cc : Cpx → LimitingFactor) (U : Cpx)
    (max_iterations : ℕ) (tol : ℚ)
    (h : (feasibilityCheck cv cc U).1 = false) :
    (∃ m,
      (maxPowerProbeTrace (feasibilityCheck cv cc) U max_iterations tol).getLast? = some m ∧
      (maxPowerAvailableMva (feasibilityCheck cv cc) U max_iterations tol).2 =
        (feasibilityCheck cv cc m).2) ∧
    (∀ s, (feasibilityCheck cv cc s).1 = true → (feasibilityCheck cv cc s).2 = none) := by
  constructor
  · have hres : (maxPowerAvailableMva (feasibilityCheck cv cc) U max_iterations tol).2 =
        (bisectAux (feasibilityCheck cv cc) tol (max_iterations - 1) Cpx.zero U
          ((feasibilityCheck cv cc) U).2).2 := by
      simp [maxPowerAvailableMva, h]
    have htr : maxPowerProbeTrace (feasibilityCheck cv cc) U max_iterations tol =
        U :: bisectAuxTrace (feasibilityCheck cv cc) tol (max_iterations - 1) Cpx.zero U := by
      simp [maxPowerProbeTrace, h]
    rw [hres, htr, bisectAux_lf_last]
    cases ht : bisectAuxTrace (feasibilityCheck cv cc) tol (max_iterations - 1) Cpx.zero U with
    | nil => exact ⟨U, by simp, by simp⟩
    | cons a l =>
        obtain ⟨m, hm⟩ := getLast?_cons_ex a l
        exact ⟨m, by rw [List.getLast?_cons_cons]; exact hm, by simp [hm]⟩
  · intro s hs
    by_cases h1 : cv s = Violations.noViolations
    · by_cases h2 : (cc s).v = Violations.noViolations
      · simp [feasibilityCheck, h1, h2]
      · simp [feasibilityCheck, h1, h2] at hs
    · simp [feasibilityCheck, h1] at hs

/-- Witness for claim C4, at the step oracle with threshold 80 MW, upper
limit 100 MW, tolerance 60 MW. -/
theorem claim_C4_witness :
    (feasibilityCheck cvStep80 ccClear (Cpx.mk 100 0)).1 = false ∧
    (∃ m,
      (maxPowerProbeTrace (feasibilityCheck cvStep80 ccClear) (Cpx.mk 100 0) 10 60).getLast? =
        some m ∧
      (maxPowerAvailableMva (feasibilityCheck cvStep80 ccClear) (Cpx.mk 100 0) 10 60).2 =
        (feasibilityCheck cvStep80 ccClear m).2) := by
  have hU : (feasibilityCheck cvStep80 ccClear (Cpx.mk 100 0)).1 = false := by
    norm_num [feasibilityCheck, cvStep80, ccClear, Violations.noViolations]
  exact ⟨hU, (claim_C4_amended cvStep80 ccClear (Cpx.mk 100 0) 10 60 hU).1⟩

/-- Counterexample to claim C4 as stated: with violations appearing above
80 MW injected, upper limit 100 MW and tolerance 60 MW, the run probes
100 MW (infeasible, thermal limiting factor) then 50 MW (feasible), and
stops.  The most recent infeasible probe carries the thermal limiting
factor, but the search returns `none` — the factor of the final,
feasible probe. -/
theorem claim_C4_counterexample :
    ((maxPowerProbeTrace (feasibilityCheck cvStep80 ccClear) (Cpx.mk 100 0) 10 60).filter
        (fun m => !((feasibilityCheck cvStep80 ccClear m).1))).getLast? =
      some (Cpx.mk 100 0) ∧
    (feasibilityCheck cvStep80 ccClear (Cpx.mk 100 0)).2 =
      some (LimitingFactor.mk (Violations.mk true false) none) ∧
    (maxPowerAvailableMva (feasibilityCheck cvStep80 ccClear) (Cpx.mk 100 0) 10 60).2 =
      none := by
  norm_num [maxPowerAvailableMva, maxPowerProbeTrace, bisectAux, bisectAuxTrace,
    feasibilityCheck, cvStep80, ccClear, Violations.noViolations, List.filter, Cpx.eq_iff]

/-! Claims C6 and C10: streaming aggregation over the persistent cursor. -/

@[simp] theorem LoadsCursor.remaining_mk (o : Option Load) (r : List Load) :
    (LoadsCursor.mk o r).remaining = consOpt o r := rfl

@[simp] theorem consOpt_none (r : List Load) : consOpt none r = [] := rfl

@[simp] theorem consOpt_some (l : Load) (ls : List Load) : consOpt (some l) ls = l :: ls := rfl

theorem busLoadWhile_none (n : Int) (rest : List Load) (acc : Cpx) :
    busLoadWhile n none rest acc = (acc, LoadsCursor.mk none rest) := by
  cases rest <;> rfl

theorem busLoadWhile_some_nil (n : Int) (ld : Load) (acc : Cpx) :
    busLoadWhile n (some ld) [] acc =
      if ld.number ≤ n then
        (if ld.number = n then acc + ld.mva_act else acc, LoadsCursor.mk none [])
      else (acc, LoadsCursor.mk (some ld) []) := rfl

theorem busLoadWhile_some_cons (n : Int) (ld l2 : Load) (ls : List Load) (acc : Cpx) :
    busLoadWhile n (some ld) (l2 :: ls) acc =
      if ld.number ≤ n then
        busLoadWhile n (some l2) ls (if ld.number = n then acc + ld.mva_act else acc)
      else (acc, LoadsCursor.mk (some ld) (l2 :: ls)) := rfl

theorem busLoadWhile_gt (n : Int) (ld : Load) (rest : List Load) (acc : Cpx)
    (h : ¬ ld.number ≤ n) :
    busLoadWhile n (some ld) rest acc = (acc, LoadsCursor.mk (some ld) rest) := by
  cases rest with
  | nil => rw [busLoadWhile_some_nil, if_neg h]
  | cons l2 ls => rw [busLoadWhile_some_cons, if_neg h]

theorem busLoadWhile_le_nil (n : Int) (ld : Load) (acc : Cpx) (h : ld.number ≤ n) :
    busLoadWhile n (some ld) [] acc =
      (if ld.number = n then acc + ld.mva_act else acc, LoadsCursor.mk none []) := by
  rw [busLoadWhile_some_nil, if_pos h]

theorem busLoadWhile_le_cons (n : Int) (ld l2 : Load) (ls : List Load) (acc : Cpx)
    (h : ld.number ≤ n) :
    busLoadWhile n (some ld) (l2 :: ls) acc =
      busLoadWhile n (some l2) ls (if ld.number = n then acc + ld.mva_act else acc) := by
  rw [busLoadWhile_some_cons, if_pos h]

theorem loadSumAt_nil (n : Int) : loadSumAt [] n = Cpx.zero := rfl

theorem loadSumAt_cons (l : Load) (L : List Load) (n : Int) :
    loadSumAt (l :: L) n =
      if l.number = n then l.mva_act + loadSumAt L n else loadSumAt L n := by
  by_cases h : l.number = n <;> simp [loadSumAt, List.filter_cons, h, sumCpx]

theorem sumCpx_append (A B : List Cpx) : sumCpx (A ++ B) = sumCpx A + sumCpx B := by
  induction A with
  | nil => simp [sumCpx, cpx_zero_add]
  | cons a A ih => simp [sumCpx, ih, cpx_add_assoc]

theorem loadSumAt_append (A B : List Load) (n : Int) :
    loadSumAt (A ++ B) n = loadSumAt A n + loadSumAt B n := by
  unfold loadSumAt
  rw [List.filter_append, List.map_append, sumCpx_append]

theorem busLoadWhile_spec (bus_number : Int) :
    ∀ (rest : List Load) (cur : Option Load) (acc : Cpx),
      List.Pairwise (fun a b : Load => a.number ≤ b.number) (consOpt cur rest) →
      (busLoadWhile bus_number cur rest acc).1 =
        acc + loadSumAt (consOpt cur rest) bus_number ∧
      (busLoadWhile bus_number cur rest acc).2.remaining =
        (consOpt cur rest).dropWhile (fun l => decide (l.number ≤ bus_number)) := by
  intro rest
  induction rest with
  | nil =>
      intro cur acc h
      cases cur with
      | none =>
          rw [busLoadWhile_none]
          exact ⟨by simp [loadSumAt_nil, cpx_add_zero], rfl⟩
      | some ld =>
          by_cases hle : ld.number ≤ bus_number
          · rw [busLoadWhile_le_nil _ _ _ hle]
            constructor
            · by_cases he : ld.number = bus_number
              · simp [he, loadSumAt_cons, loadSumAt_nil, cpx_add_zero]
              · simp [he, loadSumAt_cons, loadSumAt_nil, cpx_add_zero]
            · simp [List.dropWhile_cons, hle]
          · rw [busLoadWhile_gt _ _ _ _ hle]
            have hne : ¬ ld.number = bus_number := fun he => hle (le_of_eq he)
            constructor
            · simp [loadSumAt_cons, loadSumAt_nil, hne, cpx_add_zero]
            · simp [List.dropWhile_cons, hle]
  | cons l2 ls ih =>
      intro cur acc h
      cases cur with
      | none =>
          rw [busLoadWhile_none]
          exact ⟨by simp [loadSumAt_nil, cpx_add_zero], rfl⟩
      | some ld =>
          by_cases hle : ld.number ≤ bus_number
          · rw [busLoadWhile_le_cons _ _ _ _ _ hle]
            obtain ⟨ih1, ih2⟩ := ih (some l2)
              (if ld.number = bus_number then acc + ld.mva_act else acc)
              (by exact h.of_cons)
            constructor
            · rw [ih1]
              by_cases he : ld.number = bus_number
              · simp only [consOpt_some, loadSumAt_cons, if_pos he]
                exact cpx_add_assoc acc ld.mva_act _
              · simp only [consOpt_some, loadSumAt_cons, if_neg he]
            · rw [ih2]
              simp [List.dropWhile_cons, hle]
          · rw [busLoadWhile_gt _ _ _ _ hle]
            have hgt : bus_number < ld.number := not_le.mp hle
            simp only [consOpt_some] at h
            constructor
            · have hall : ∀ x ∈ consOpt (some ld) (l2 :: ls),
                  ¬ ((fun l : Load => decide (l.number = bus_number)) x = true) := by
                intro x hx
                simp only [consOpt_some] at hx
                simp only [decide_eq_true_eq]
                intro he
                rcases List.mem_cons.mp hx with rfl | hx2
                · omega
                · have hxl := (List.pairwise_cons.mp h).1 x hx2
                  omega
              have hz : loadSumAt (consOpt (some ld) (l2 :: ls)) bus_number = Cpx.zero := by
                unfold loadSumAt
                rw [List.filter_eq_nil_iff.mpr hall]
                rfl
              rw [hz, cpx_add_zero]
            · simp [List.dropWhile_cons, hle]

theorem busActualLoadMva_spec (c : LoadsCursor) (bus_number : Int)
    (h : List.Pairwise (fun a b : Load => a.number ≤ b.number) c.remaining) :
    (busActualLoadMva c bus_number).1 = loadSumAt c.remaining bus_number ∧
    (busActualLoadMva c bus_number).2.remaining =
      c.remaining.dropWhile (fun l => decide (l.number ≤ bus_number)) := by
  obtain ⟨h1, h2⟩ := busLoadWhile_spec bus_number c.rest c.load Cpx.zero h
  constructor
  · show (busLoadWhile bus_number c.load c.rest Cpx.zero).1 = _
    rw [h1, cpx_zero_add]
    rfl
  · exact h2

theorem loadSumAt_dropWhile (L : List Load) (m n : Int) (hmn : m < n) :
    loadSumAt (L.dropWhile (fun l => decide (l.number ≤ m))) n = loadSumAt L n := by
  have hsplit : loadSumAt L n =
      loadSumAt (L.takeWhile (fun l => decide (l.number ≤ m))) n +
        loadSumAt (L.dropWhile (fun l => decide (l.number ≤ m))) n := by
    conv_lhs => rw [← List.takeWhile_append_dropWhile (fun l => decide (l.number ≤ m)) L]
    exact loadSumAt_append _ _ n
  have htake : loadSumAt (L.takeWhile (fun l => decide (l.number ≤ m))) n = Cpx.zero := by
    unfold loadSumAt
    have hall : ∀ x ∈ L.takeWhile (fun l => decide (l.number ≤ m)),
        ¬ ((fun l : Load => decide (l.number = n)) x = true) := by
      intro x hx
      have hxm : x.number ≤ m := by
        have := List.mem_takeWhile_imp hx
        simpa using this
      simp only [decide_eq_true_eq]
      omega
    rw [List.filter_eq_nil_iff.mpr hall]
    rfl
  rw [hsplit, htake, cpx_zero_add]

theorem dropWhile_all_gt (m : Int) :
    ∀ (L : List Load), List.Pairwise (fun a b : Load => a.number ≤ b.number) L →
      ∀ x ∈ L.dropWhile (fun l => decide (l.number ≤ m)), m < x.number := by
  intro L
  induction L with
  | nil => intro _ x hx; simp at hx
  | cons a L ih =>
      intro h x hx
      rw [List.dropWhile_cons] at hx
      by_cases ha : a.number ≤ m
      · rw [if_pos (decide_eq_true ha)] at hx
        exact ih h.of_cons x hx
      · rw [if_neg (by simpa using ha)] at hx
        rcases List.mem_cons.mp hx with rfl | hx2
        · omega
        · have hxl := (List.pairwise_cons.mp h).1 x hx2
          omega

theorem runQueries_cons_fst (c : LoadsCursor) (n : Int) (ns : List Int) :
    (runQueries c (n :: ns)).1 =
      (busActualLoadMva c n).1 :: (runQueries (busActualLoadMva c n).2 ns).1 := by
  simp [runQueries]

theorem runQueries_spec :
    ∀ (qs : List Int) (c : LoadsCursor),
      List.Pairwise (fun a b : Load => a.number ≤ b.number) c.remaining →
      List.Pairwise (fun a b : Int => a < b) qs →
      (runQueries c qs).1 = qs.map (fun q => loadSumAt c.remaining q) := by
  intro qs
  induction qs with
  | nil => intro c _ _; rfl
  | cons q qs ih =>
      intro c hc hq
      obtain ⟨h1, h2⟩ := busActualLoadMva_spec c q hc
      have hcs : List.Pairwise (fun a b : Load => a.number ≤ b.number)
          ((busActualLoadMva c q).2.remaining) := by
        rw [h2]
        exact hc.sublist (List.dropWhile_sublist _)
      rw [runQueries_cons_fst, List.map_cons, h1,
        ih (busActualLoadMva c q).2 hcs (List.pairwise_cons.mp hq).2, h2]
      congr 1
      apply List.map_congr_left
      intro q2 hq2
      exact loadSumAt_dropWhile c.remaining q q2 ((List.pairwise_cons.mp hq).1 q2 hq2)

theorem init_remaining (loads : List Load) : (LoadsCursor.init loads).remaining = loads := by
  cases loads <;> rfl

/-- Claim C6 (amended): for a loads list that is non-decreasing in bus
number and a *strictly increasing* sequence of queried bus numbers,
`bus_actual_load_mva` returns, at every query `N`, the sum of `mva_act`
over all loads at bus `N`, using the single persistent forward cursor; in
particular the claim's concrete run on `loads4` with queries 1, 4, 9
yields 8+0j, 2+0j, 1+0j (see the witness).  The original claim's
"non-decreasing" query order (which admits repeated equal queries) is
refuted by `claim_C6_counterexample`: the second of two equal queries
returns 0j. -/
theorem claim_C6_amended (loads : List Load) (qs : List Int)
    (hl : List.Pairwise (fun a b : Load => a.number ≤ b.number) loads)
    (hq : List.Pairwise (fun a b : Int => a < b) qs) :
    (runQueries (LoadsCursor.init loads) qs).1 = qs.map (loadSumAt loads) := by
  have h := runQueries_spec qs (LoadsCursor.init loads)
    (by rw [init_remaining]; exact hl) hq
  rw [init_remaining] at h
  exact h

/-- Witness for claim C6: the claim's synthetic sorted loads and the
strictly increasing queries 1, 4, 9 give 8+0j, 2+0j, 1+0j. -/
theorem claim_C6_witness :
    List.Pairwise (fun a b : Int => a < b) [1, 4, 9] ∧
    (runQueries (LoadsCursor.init loads4) [1, 4, 9]).1 =
      [Cpx.mk 8 0, Cpx.mk 2 0, Cpx.mk 1 0] := by
  constructor
  · decide
  · have h := claim_C6_amended loads4 [1, 4, 9] (by decide) (by decide)
    rw [h]
    norm_num [loads4, loadSumAt, List.filter, sumCpx, Cpx.eq_iff, cpx_add_zero]

/-- Counterexample to claim C6 as stated: the query sequence `[1, 1]` is
non-decreasing, but on a single 5+0j load at bus 1 the second query
returns 0j because the cursor has already consumed the load, not the
claimed per-bus sum 5+0j. -/
theorem claim_C6_counterexample :
    List.Pairwise (fun a b : Int => a ≤ b) [1, 1] ∧
    (runQueries (LoadsCursor.init loads1) [1, 1]).1 = [Cpx.mk 5 0, Cpx.mk 0 0] ∧
    [1, 1].map (loadSumAt loads1) = [Cpx.mk 5 0, Cpx.mk 5 0] ∧
    ¬ ((runQueries (LoadsCursor.init loads1) [1, 1]).1 = [1, 1].map (loadSumAt loads1)) := by
  refine ⟨by decide, ?_, ?_, ?_⟩ <;>
    norm_num [runQueries, busActualLoadMva, busLoadWhile, LoadsCursor.init, loads1,
      loadSumAt, List.filter, sumCpx, Cpx.eq_iff, cpx_add_zero, cpx_zero_add]

/-- Claim C10: querying `bus_actual_load_mva` with a bus number `n`
smaller than an already-queried bus number `m` raises nothing (the
embedded loop is total) and returns the sum over only the loads not yet
consumed by the forward-only cursor — which, the loads being sorted, is
0j because the cursor has already advanced past every load at bus `n`. -/
theorem claim_C10 (loads : List Load) (m n : Int)
    (hl : List.Pairwise (fun a b : Load => a.number ≤ b.number) loads)
    (hmn : n < m) :
    (busActualLoadMva (busActualLoadMva (LoadsCursor.init loads) m).2 n).1 =
      loadSumAt ((busActualLoadMva (LoadsCursor.init loads) m).2).remaining n ∧
    (busActualLoadMva (busActualLoadMva (LoadsCursor.init loads) m).2 n).1 = Cpx.zero := by
  obtain ⟨h1, h2⟩ := busActualLoadMva_spec (LoadsCursor.init loads) m
    (by rw [init_remaining]; exact hl)
  have hs2 : List.Pairwise (fun a b : Load => a.number ≤ b.number)
      ((busActualLoadMva (LoadsCursor.init loads) m).2.remaining) := by
    rw [h2, init_remaining]
    exact hl.sublist (List.dropWhile_sublist _)
  obtain ⟨g1, g2⟩ := busActualLoadMva_spec _ n hs2
  refine ⟨g1, ?_⟩
  rw [g1, h2, init_remaining]
  have hall : ∀ x ∈ loads.dropWhile (fun l => decide (l.number ≤ m)),
      ¬ ((fun l : Load => decide (l.number = n)) x = true) := by
    intro x hx
    have hgt := dropWhile_all_gt m loads hl x hx
    simp only [decide_eq_true_eq]
    omega
  unfold loadSumAt
  rw [List.filter_eq_nil_iff.mpr hall]
  rfl

/-- Witness for claim C10: on the claim's loads, querying bus 4 and then
the smaller bus 1 silently returns 0j. -/
theorem claim_C10_witness :
    (1 : Int) < 4 ∧
    (busActualLoadMva (busActualLoadMva (LoadsCursor.init loads4) 4).2 1).1 = Cpx.zero := by
  refine ⟨by decide, ?_⟩
  exact (claim_C10 loads4 4 1 (by decide) (by decide)).2

end Pssetools
